import Mathlib

/-!
Shallow embedding of the board engine of the copyboard application
(`copyboard_extension/core.py`) and of the message dispatcher of its
native messaging host (`copyboard_extension/native_messaging_host.py`).

The module-level mutable globals of `core.py` (`_board`, `MAX_BOARD_SIZE`,
`_board_modified`, `_last_saved_time`, `_changes_since_save`, and the
contents of the backing file `BOARD_FILE`) are collected into a state
record `CoreState`; every Python function that reads or mutates them
becomes a Lean function over `CoreState`.  Wall-clock time (`time.time()`)
is passed in explicitly as a rational `now`; clipboard writes are returned
as values instead of performed as effects.  Disk writes always succeed in
the model (the Python code only catches and logs I/O exceptions).
-/

namespace Copyboard

/-- Seconds to wait before auto-saving (`AUTO_SAVE_DELAY = 2.0` in core.py). -/
def AUTO_SAVE_DELAY : ℚ := 2

/-- Number of changes before force saving (`SAVE_BATCH_SIZE = 3` in core.py). -/
def SAVE_BATCH_SIZE : Nat := 3

/-- The module-level state of `core.py`: the in-memory board, the mutable
bound `MAX_BOARD_SIZE`, the persistence bookkeeping flags, and the
contents of the backing file `BOARD_FILE` (as the list it decodes to). -/
structure CoreState where
  board : List String
  maxBoardSize : Nat
  boardModified : Bool
  lastSavedTime : ℚ
  changesSinceSave : Nat
  file : List String
  deriving DecidableEq, Repr

/-- Model of `_mark_modified`: set the dirty flag and bump the change counter. -/
def _mark_modified (s : CoreState) : CoreState :=
  { s with boardModified := true, changesSinceSave := s.changesSinceSave + 1 }

/-- Model of `_save_board(force)`: skip when not modified and not forced;
otherwise write the board to the backing file when forced, when enough
changes accumulated, or when enough time passed since the last save. -/
def _save_board (force : Bool) (now : ℚ) (s : CoreState) : CoreState :=
  if s.boardModified = false ∧ force = false then s
  else if force = true ∨ SAVE_BATCH_SIZE ≤ s.changesSinceSave
      ∨ (AUTO_SAVE_DELAY < now - s.lastSavedTime ∧ s.boardModified = true) then
    { s with file := s.board, boardModified := false,
             lastSavedTime := now, changesSinceSave := 0 }
  else s

/-- Model of `copy_to_board(content)` (with `content` already resolved, as
the Python code resolves `None` to the current clipboard text): dedup
against the head, else push on top, drop the last entry when over the
bound, mark modified and attempt a non-forced save.  Returns the content
together with the new state. -/
def copy_to_board (content : String) (now : ℚ) (s : CoreState) : String × CoreState :=
  if s.board.head? = some content then
    (content, s)
  else
    let b := content :: s.board
    let b := if s.maxBoardSize < b.length then b.dropLast else b
    (content, _save_board false now (_mark_modified { s with board := b }))

/-- Model of `paste_from_board(index)`: `False` on an empty board or an
out-of-range index, else `True` (the clipboard write is not modelled). -/
def paste_from_board (index : Int) (s : CoreState) : Bool :=
  if s.board = [] ∨ index < 0 ∨ (s.board.length : Int) ≤ index then false else true

/-- Model of `paste_all()`: on a non-empty board, stage all entries joined
with a newline; the second component is the string handed to the
clipboard (`none` when nothing was staged). -/
def paste_all (s : CoreState) : Bool × Option String :=
  if s.board = [] then (false, none)
  else (true, some (String.intercalate "\n" s.board))

/-- Model of `paste_combination(indices)`: fail on an empty board or any
out-of-range index, else stage the referenced entries concatenated in the
order the indices were given, with no separator. -/
def paste_combination (indices : List Int) (s : CoreState) : Bool × Option String :=
  if s.board = [] then (false, none)
  else if indices.all (fun idx => decide (0 ≤ idx ∧ idx < (s.board.length : Int))) then
    (true, some (String.join (indices.map (fun idx => s.board.getD idx.toNat ""))))
  else (false, none)

/-- Model of `drop_item(index)`: `none` removes the oldest (last) entry, an
explicit index is bounds-checked and removes that entry; failures leave
the state untouched. -/
def drop_item (index : Option Int) (now : ℚ) (s : CoreState) : Bool × CoreState :=
  if s.board = [] then (false, s)
  else
    match index with
    | none =>
      (true, _save_board false now (_mark_modified { s with board := s.board.dropLast }))
    | some i =>
      if 0 ≤ i ∧ i < (s.board.length : Int) then
        (true, _save_board false now
          (_mark_modified { s with board := s.board.eraseIdx i.toNat }))
      else (false, s)

/-- Model of `clear_board()`: empty the board, mark modified, and save with
`force=True`; returns the (empty) board together with the new state. -/
def clear_board (now : ℚ) (s : CoreState) : List String × CoreState :=
  let s2 := _save_board true now (_mark_modified { s with board := [] })
  (s2.board, s2)

/-- Model of `get_board()`. -/
def get_board (s : CoreState) : List String := s.board

/-- Model of `get_board_item(index)`: bounds-checked single read. -/
def get_board_item (index : Int) (s : CoreState) : Option String :=
  if 0 ≤ index ∧ index < (s.board.length : Int) then s.board[index.toNat]? else none

/-- Model of `get_board_size()`. -/
def get_board_size (s : CoreState) : Nat := s.board.length

/-- The four characters the code substitutes for each newline: the literal
`'â†µ '` on line 298 of core.py (bytes `c3 a2 e2 80 a0 c2 b5 20`). -/
def newlineMark : List Char := ['â', '†', 'µ', ' ']

/-- Model of `str.replace('\n', 'â†µ ')` at the character level. -/
def replaceNewlines : List Char → List Char
  | [] => []
  | c :: cs => if c = '\n' then newlineMark ++ replaceNewlines cs else c :: replaceNewlines cs

/-- The per-item preview text of `get_board_preview`: truncate to
`preview_max` characters appending `"..."` when the item is longer, then
rewrite newlines. -/
def previewOf (preview_max : Nat) (item : String) : String :=
  let p := if preview_max < item.length then String.mk (item.toList.take preview_max) ++ "..."
           else item
  String.mk (replaceNewlines p.toList)

/-- The `for index, item in enumerate(_board)` loop body of
`get_board_preview`, building the index-to-row association in order. -/
def previewRows (preview_max : Nat) : Nat → List String → List (Nat × String)
  | _, [] => []
  | index, item :: rest =>
    (index, toString index ++ ": " ++ previewOf preview_max item)
      :: previewRows preview_max (index + 1) rest

/-- Model of `get_board_preview(preview_max)`: the dict mapping each index
to its display row, as an association list in index order. -/
def get_board_preview (preview_max : Nat) (s : CoreState) : List (Nat × String) :=
  previewRows preview_max 0 s.board

/-- The `while len(_board) > MAX_BOARD_SIZE: _board.pop()` loop of
`set_max_board_size`, dropping the last entry until within the bound. -/
def trimTo (m : Nat) (b : List String) : List String :=
  if m < b.length then trimTo m b.dropLast else b
termination_by b.length
decreasing_by simp only [List.length_dropLast]; omega

/-- Model of `set_max_board_size(size)`: clamp to at least 1, trim the
board from the tail, and on any eviction mark modified and force a save. -/
def set_max_board_size (size : Int) (now : ℚ) (s : CoreState) : CoreState :=
  let m : Nat := (max 1 size).toNat
  let s1 := { s with maxBoardSize := m, board := trimTo m s.board }
  if m < s.board.length then _save_board true now (_mark_modified s1) else s1

/-- Model of `force_save()`. -/
def force_save (now : ℚ) (s : CoreState) : CoreState := _save_board true now s

/-- A request message of the native messaging host, after JSON decoding:
`message.get(...)` defaults are applied at each use site, so absent keys
are `none` here. -/
structure IpcMessage where
  action : Option String
  content : Option String
  index : Option Int
  deriving DecidableEq, Repr

/-- A response dict of `handle_message`: only the keys a branch sets are
`some`. -/
structure IpcResponse where
  success : Bool
  items : Option (List String) := none
  content : Option String := none
  error : Option String := none
  deriving DecidableEq, Repr

/-- Model of `handle_message(message)` of native_messaging_host.py: the
dispatch on `action`.  Python truthiness tests on strings (`if content:`)
become non-emptiness tests; the `except` arms are unreachable in the
model since the modelled core operations do not raise. -/
def handle_message (msg : IpcMessage) (now : ℚ) (s : CoreState) : IpcResponse × CoreState :=
  let action := msg.action.getD ""
  if action = "add" then
    let content := msg.content.getD ""
    if content ≠ "" then
      ({ success := true }, (copy_to_board content now s).2)
    else
      ({ success := false, error := some "No content provided" }, s)
  else if action = "list" then
    ({ success := true, items := some (get_board s) }, s)
  else if action = "paste" then
    let index := msg.index.getD (-1)
    if 0 ≤ index then
      match get_board_item index s with
      | some c =>
        if c ≠ "" then ({ success := true, content := some c }, s)
        else ({ success := false, error := some "Invalid index or item not found" }, s)
      | none => ({ success := false, error := some "Invalid index or item not found" }, s)
    else ({ success := false, error := some "Invalid index or item not found" }, s)
  else if action = "paste_direct" then
    ({ success := paste_from_board (msg.index.getD 0) s }, s)
  else if action = "clear" then
    ({ success := true }, (clear_board now s).2)
  else
    ({ success := false, error := some ("Unknown action: " ++ action) }, s)

/-- A sequence of `copy_to_board` calls, each with its content and its
wall-clock instant, applied in order. -/
def insertAll (calls : List (String × ℚ)) (s : CoreState) : CoreState :=
  calls.foldl (fun t c => (copy_to_board c.1 c.2 t).2) s

end Copyboard

namespace Copyboard

theorem _mark_modified_board (s : CoreState) : (_mark_modified s).board = s.board := rfl

theorem _mark_modified_max (s : CoreState) :
    (_mark_modified s).maxBoardSize = s.maxBoardSize := rfl

theorem _save_board_board (f : Bool) (now : ℚ) (s : CoreState) :
    (_save_board f now s).board = s.board := by
  unfold _save_board
  split
  · rfl
  · split <;> rfl

theorem _save_board_max (f : Bool) (now : ℚ) (s : CoreState) :
    (_save_board f now s).maxBoardSize = s.maxBoardSize := by
  unfold _save_board
  split
  · rfl
  · split <;> rfl

theorem _save_board_force (now : ℚ) (s : CoreState) :
    _save_board true now s
      = { s with file := s.board, boardModified := false,
                 lastSavedTime := now, changesSinceSave := 0 } := by
  unfold _save_board
  rw [if_neg (by simp), if_pos (Or.inl rfl)]

/-- One `copy_to_board` call keeps the bound and preserves `maxBoardSize`. -/
theorem copy_to_board_step (c : String) (now : ℚ) (s : CoreState)
    (h : s.board.length ≤ s.maxBoardSize) :
    (copy_to_board c now s).2.maxBoardSize = s.maxBoardSize ∧
    (copy_to_board c now s).2.board.length ≤ s.maxBoardSize := by
  unfold copy_to_board
  split
  · exact ⟨rfl, h⟩
  · simp only [_save_board_max, _mark_modified_max, _save_board_board, _mark_modified_board]
    constructor
    · trivial
    · split
      · rename_i hlong
        simp only [List.length_dropLast, List.length_cons]
        omega
      · rename_i hshort
        simp only [List.length_cons] at hshort ⊢
        omega

/-- C1: for every sequence of `copy_to_board` calls starting from a state
whose board has length at most `maxBoardSize`, the board's length is at
most `maxBoardSize` after the whole sequence (and hence, since the
statement holds for every sequence, after each call of any sequence). -/
theorem insertAll_length_le (calls : List (String × ℚ)) (s : CoreState)
    (h : s.board.length ≤ s.maxBoardSize) :
    (insertAll calls s).board.length ≤ (insertAll calls s).maxBoardSize := by
  induction calls generalizing s with
  | nil => simpa [insertAll] using h
  | cons c rest ih =>
    have step := copy_to_board_step c.1 c.2 s h
    have hrw : insertAll (c :: rest) s = insertAll rest (copy_to_board c.1 c.2 s).2 := rfl
    rw [hrw]
    exact ih _ (step.2.trans_eq step.1.symm)

/-- Witness for C1 at a concrete overfull sequence: three inserts into an
empty board bounded at 2. -/
theorem insertAll_length_le_witness :
    (insertAll [("a", 0), ("b", 1), ("c", 2)]
        (⟨[], 2, false, 0, 0, []⟩ : CoreState)).board.length
      ≤ (insertAll [("a", 0), ("b", 1), ("c", 2)]
        (⟨[], 2, false, 0, 0, []⟩ : CoreState)).maxBoardSize :=
  insertAll_length_le [("a", 0), ("b", 1), ("c", 2)] ⟨[], 2, false, 0, 0, []⟩ (by decide)

/-- When the head already equals the content, `copy_to_board` returns the
content and the state unchanged. -/
theorem copy_to_board_noop (c : String) (now : ℚ) (s : CoreState)
    (h : s.board.head? = some c) : copy_to_board c now s = (c, s) := by
  unfold copy_to_board
  rw [if_pos h]

/-- After `copy_to_board c`, the head of the board is `c`, provided the
bound is at least 1 (as `set_max_board_size` guarantees). -/
theorem copy_to_board_head (c : String) (now : ℚ) (s : CoreState)
    (hmax : 1 ≤ s.maxBoardSize) :
    (copy_to_board c now s).2.board.head? = some c := by
  unfold copy_to_board
  split
  · assumption
  · simp only [_save_board_board, _mark_modified_board]
    split
    · rename_i hlong
      cases hb : s.board with
      | nil =>
        rw [hb] at hlong
        simp at hlong
        omega
      | cons x xs =>
        simp [List.dropLast]
    · rfl

/-- C2: when the board's head equals the content, `copy_to_board` is a
no-op returning the content with the whole state (board, dirty flag,
change counter, file) unchanged; in particular inserting the same content
twice in a row changes nothing on the second call. -/
theorem copy_to_board_dedup (s : CoreState) (c : String) (now now2 : ℚ)
    (hmax : 1 ≤ s.maxBoardSize) :
    (s.board.head? = some c → copy_to_board c now s = (c, s)) ∧
    copy_to_board c now2 (copy_to_board c now s).2
      = (c, (copy_to_board c now s).2) := by
  refine ⟨fun h => copy_to_board_noop c now s h, ?_⟩
  exact copy_to_board_noop c now2 _ (copy_to_board_head c now s hmax)

/-- Witness for C2 at a concrete state whose head is the inserted text. -/
theorem copy_to_board_dedup_witness :
    ((⟨["x"], 10, false, 0, 0, []⟩ : CoreState).board.head? = some "x" →
      copy_to_board "x" 0 ⟨["x"], 10, false, 0, 0, []⟩
        = ("x", ⟨["x"], 10, false, 0, 0, []⟩)) ∧
    copy_to_board "x" 1 (copy_to_board "x" 0 (⟨["x"], 10, false, 0, 0, []⟩ : CoreState)).2
      = ("x", (copy_to_board "x" 0 (⟨["x"], 10, false, 0, 0, []⟩ : CoreState)).2) :=
  copy_to_board_dedup ⟨["x"], 10, false, 0, 0, []⟩ "x" 0 1 (by decide)

/-- A concrete three-entry state used by the examples: index 0 is "c". -/
def exBoard : CoreState := ⟨["c", "b", "a"], 10, false, 0, 0, []⟩

/-- C3: `paste_combination` succeeds exactly on a non-empty board with all
indices in range, stages nothing and fails whole when any index is out of
range, and on success stages the referenced entries concatenated in
index-list order with no separator; `paste_all` stages all entries in
board order joined with a newline.  On `["c", "b", "a"]`,
`paste_combination [2, 0, 1]` stages `"acb"` while `paste_all` stages
`"c\nb\na"`. -/
theorem paste_combination_paste_all_spec (s : CoreState) (indices : List Int) :
    ((paste_combination indices s).1 = true ↔
      s.board ≠ [] ∧ ∀ i ∈ indices, 0 ≤ i ∧ i < (s.board.length : Int)) ∧
    ((paste_combination indices s).1 = false →
      paste_combination indices s = (false, none)) ∧
    ((paste_combination indices s).1 = true →
      (paste_combination indices s).2
        = some (String.join (indices.map (fun i => s.board.getD i.toNat "")))) ∧
    (s.board ≠ [] → paste_all s = (true, some (String.intercalate "\n" s.board))) ∧
    paste_combination [2, 0, 1] exBoard = (true, some "acb") ∧
    paste_all exBoard = (true, some ("c\nb\na")) := by
  refine ⟨?_, ?_, ?_, ?_, by decide, by decide⟩
  · unfold paste_combination
    split_ifs with hb hv
    · simp [hb]
    · simp only [List.all_eq_true, decide_eq_true_eq] at hv
      exact iff_of_true rfl ⟨hb, hv⟩
    · simp only [List.all_eq_true, decide_eq_true_eq] at hv
      exact iff_of_false (by simp) (fun hc => hv hc.2)
  · unfold paste_combination
    split_ifs <;> simp
  · unfold paste_combination
    split_ifs <;> simp
  · intro h
    unfold paste_all
    rw [if_neg h]

/-- Witness for C3 at the example board, reading off the two staged
strings. -/
theorem paste_combination_paste_all_spec_witness :
    (paste_combination [2, 0, 1] exBoard).2 = some "acb" ∧
    paste_all exBoard = (true, some ("c\nb\na")) := by
  have h := paste_combination_paste_all_spec exBoard [2, 0, 1]
  exact ⟨by rw [h.2.2.2.2.1], h.2.2.2.2.2⟩

/-- C4: `drop_item` with an explicit index returns `false` exactly when
the board is empty or the index is out of `[0, len)`, leaving the state
untouched in that case; on success the board loses exactly the entry at
that index, keeping all other entries in their relative order. -/
theorem drop_item_at_spec (s : CoreState) (i : Int) (now : ℚ) :
    ((drop_item (some i) now s).1 = false ↔
      s.board = [] ∨ i < 0 ∨ (s.board.length : Int) ≤ i) ∧
    ((drop_item (some i) now s).1 = false → (drop_item (some i) now s).2 = s) ∧
    ((drop_item (some i) now s).1 = true →
      (drop_item (some i) now s).2.board
          = s.board.take i.toNat ++ s.board.drop (i.toNat + 1) ∧
      (drop_item (some i) now s).2.board.length + 1 = s.board.length) := by
  by_cases hb : s.board = []
  · simp [drop_item, hb]
  · by_cases hi : 0 ≤ i ∧ i < (s.board.length : Int)
    · have hnat : i.toNat < s.board.length := by omega
      simp only [drop_item, if_neg hb, if_pos hi]
      refine ⟨?_, by simp, ?_⟩
      · refine iff_of_false (by simp) ?_
        rintro (h | h | h)
        · exact hb h
        · omega
        · omega
      · intro _
        constructor
        · simp only [_save_board_board, _mark_modified_board]
          exact List.eraseIdx_eq_take_drop_succ _ _
        · simp only [_save_board_board, _mark_modified_board]
          exact List.length_eraseIdx_add_one hnat
    · simp only [drop_item, if_neg hb, if_neg hi]
      exact ⟨iff_of_true (by simp) (Or.inr (by omega)), by simp, by simp⟩

/-- Witness for C4: removing index 1 from `["c", "b", "a"]` keeps the
other two entries in order. -/
theorem drop_item_at_spec_witness :
    (drop_item (some 1) 0 (⟨["c", "b", "a"], 10, false, 0, 0, []⟩ : CoreState)).2.board
      = ["c", "a"] :=
  (((drop_item_at_spec ⟨["c", "b", "a"], 10, false, 0, 0, []⟩ 1 0).2.2)
    (by decide)).1.trans (by decide)

/-- C5: `clear_board` empties the board and forces a synchronous flush,
after which the file holds the empty board and the persistence state is
clean (dirty flag cleared, change counter zero, save time updated). -/
theorem clear_board_spec (now : ℚ) (s : CoreState) :
    (clear_board now s).2.board = [] ∧
    (clear_board now s).2.file = [] ∧
    (clear_board now s).2.boardModified = false ∧
    (clear_board now s).2.changesSinceSave = 0 ∧
    (clear_board now s).2.lastSavedTime = now ∧
    (clear_board now s).1 = [] := by
  simp [clear_board, _save_board_force, _mark_modified]

/-- C7: a non-forced save writes nothing when fewer than `SAVE_BATCH_SIZE`
changes accumulated and less than `AUTO_SAVE_DELAY` elapsed, and writes
nothing whenever the board is not dirty; a forced save always writes; a
dirty non-forced save writes whenever the batch-size or delay trigger has
fired; and every call that writes at all (forced or policy-triggered)
leaves the same clean state: the file holding the board, the dirty flag
cleared, the change counter zero, and the save time updated to `now`. -/
theorem save_board_spec (s : CoreState) (now : ℚ) :
    ((s.changesSinceSave < SAVE_BATCH_SIZE ∧ now - s.lastSavedTime < AUTO_SAVE_DELAY) →
      _save_board false now s = s) ∧
    (s.boardModified = false → _save_board false now s = s) ∧
    (_save_board true now s).file = s.board ∧
    (_save_board true now s).boardModified = false ∧
    (_save_board true now s).changesSinceSave = 0 ∧
    (_save_board true now s).lastSavedTime = now ∧
    (s.boardModified = true →
      (SAVE_BATCH_SIZE ≤ s.changesSinceSave ∨ AUTO_SAVE_DELAY < now - s.lastSavedTime) →
      _save_board false now s
        = { s with file := s.board, boardModified := false,
                   lastSavedTime := now, changesSinceSave := 0 }) ∧
    (∀ force : Bool, _save_board force now s = s ∨
      _save_board force now s
        = { s with file := s.board, boardModified := false,
                   lastSavedTime := now, changesSinceSave := 0 }) := by
  refine ⟨?_, ?_, ?_, ?_, ?_, ?_, ?_, ?_⟩
  · rintro ⟨h1, h2⟩
    unfold _save_board
    split_ifs with hskip hcond
    · rfl
    · exfalso
      rcases hcond with hc | hc | hc
      · exact absurd hc (by simp)
      · omega
      · exact absurd hc.1 (not_lt.mpr h2.le)
    · rfl
  · intro hm
    unfold _save_board
    rw [if_pos ⟨hm, rfl⟩]
  · simp [_save_board_force]
  · simp [_save_board_force]
  · simp [_save_board_force]
  · simp [_save_board_force]
  · intro hm htrig
    unfold _save_board
    rw [if_neg (fun hc => by rw [hm] at hc; exact absurd hc.1 (by simp))]
    rw [if_pos]
    rcases htrig with h | h
    · exact Or.inr (Or.inl h)
    · exact Or.inr (Or.inr ⟨h, hm⟩)
  · intro force
    unfold _save_board
    split_ifs with h1 h2
    · exact Or.inl rfl
    · exact Or.inr rfl
    · exact Or.inl rfl

/-- Witness for C7: one change at time 1 after a save at time 0 is below
both thresholds, so nothing is written; a forced save writes the board;
and a non-forced save with three accumulated changes is a
policy-triggered write that leaves the clean state. -/
theorem save_board_spec_witness :
    _save_board false 1 (⟨["a"], 10, true, 0, 1, []⟩ : CoreState)
        = (⟨["a"], 10, true, 0, 1, []⟩ : CoreState) ∧
    (_save_board true 1 (⟨["a"], 10, true, 0, 1, []⟩ : CoreState)).file = ["a"] ∧
    _save_board false 1 (⟨["a"], 10, true, 0, 3, []⟩ : CoreState)
        = (⟨["a"], 10, false, 1, 0, ["a"]⟩ : CoreState) :=
  ⟨(save_board_spec ⟨["a"], 10, true, 0, 1, []⟩ 1).1
      ⟨by decide, by norm_num [AUTO_SAVE_DELAY]⟩,
   (save_board_spec ⟨["a"], 10, true, 0, 1, []⟩ 1).2.2.1,
   ((save_board_spec ⟨["a"], 10, true, 0, 3, []⟩ 1).2.2.2.2.2.2.1 rfl
      (Or.inl (by decide))).trans (by decide)⟩

/-- The trim loop computes the first `m` entries of the board. -/
theorem trimTo_eq_take (m : Nat) (b : List String) : trimTo m b = b.take m := by
  rw [trimTo]
  split
  · rename_i h
    rw [trimTo_eq_take m b.dropLast, List.dropLast_eq_take, List.take_take]
    congr 1
    omega
  · rename_i h
    exact (List.take_of_length_le (by omega)).symm
termination_by b.length
decreasing_by simp only [List.length_dropLast]; omega

/-- Closed form of `set_max_board_size`: the new bound is the clamped
size, the board keeps its first `max 1 size` entries, and exactly when
entries were evicted the result is also flushed. -/
theorem set_max_board_size_eq (size : Int) (now : ℚ) (s : CoreState) :
    set_max_board_size size now s =
      if (max 1 size).toNat < s.board.length then
        { s with maxBoardSize := (max 1 size).toNat,
                 board := s.board.take (max 1 size).toNat,
                 file := s.board.take (max 1 size).toNat,
                 boardModified := false, lastSavedTime := now, changesSinceSave := 0 }
      else
        { s with maxBoardSize := (max 1 size).toNat,
                 board := s.board.take (max 1 size).toNat } := by
  simp only [set_max_board_size]
  split_ifs with h
  · rw [_save_board_force]
    simp [_mark_modified, trimTo_eq_take]
  · simp [trimTo_eq_take]

/-- C6: `set_max_board_size` sets the bound to `max 1 size`; the board
keeps exactly its first (most recent) `max 1 size` entries, and when the
old board was longer than the new bound the result has exactly the new
bound's length and has been flushed (file equals board, state clean). -/
theorem set_max_board_size_spec (size : Int) (now : ℚ) (s : CoreState) :
    ((set_max_board_size size now s).maxBoardSize : Int) = max 1 size ∧
    (set_max_board_size size now s).board
      = s.board.take (set_max_board_size size now s).maxBoardSize ∧
    ((set_max_board_size size now s).maxBoardSize < s.board.length →
      (set_max_board_size size now s).board.length
          = (set_max_board_size size now s).maxBoardSize ∧
      (set_max_board_size size now s).file = (set_max_board_size size now s).board ∧
      (set_max_board_size size now s).boardModified = false ∧
      (set_max_board_size size now s).changesSinceSave = 0) := by
  have hmnn : (0 : Int) ≤ max 1 size := le_trans zero_le_one (le_max_left 1 size)
  rw [set_max_board_size_eq]
  split_ifs with h
  · refine ⟨Int.toNat_of_nonneg hmnn, rfl, fun _ => ⟨?_, rfl, rfl, rfl⟩⟩
    simp only [List.length_take]
    omega
  · exact ⟨Int.toNat_of_nonneg hmnn, rfl, fun hlt => absurd hlt h⟩

/-- Witness for C6: shrinking the bound to 2 on a five-entry board keeps
the two most recent entries and flushes. -/
theorem set_max_board_size_spec_witness :
    (set_max_board_size 2 0 (⟨["e", "d", "c", "b", "a"], 10, false, 0, 0, []⟩ : CoreState)).board.length
        = (set_max_board_size 2 0 (⟨["e", "d", "c", "b", "a"], 10, false, 0, 0, []⟩ : CoreState)).maxBoardSize ∧
    (set_max_board_size 2 0 (⟨["e", "d", "c", "b", "a"], 10, false, 0, 0, []⟩ : CoreState)).file
        = (set_max_board_size 2 0 (⟨["e", "d", "c", "b", "a"], 10, false, 0, 0, []⟩ : CoreState)).board ∧
    (set_max_board_size 2 0 (⟨["e", "d", "c", "b", "a"], 10, false, 0, 0, []⟩ : CoreState)).boardModified
        = false ∧
    (set_max_board_size 2 0 (⟨["e", "d", "c", "b", "a"], 10, false, 0, 0, []⟩ : CoreState)).changesSinceSave
        = 0 :=
  (set_max_board_size_spec 2 0 ⟨["e", "d", "c", "b", "a"], 10, false, 0, 0, []⟩).2.2
    (by rw [set_max_board_size_eq]; norm_num)

/-- The newline rewrite distributes over concatenation. -/
theorem replaceNewlines_append (xs ys : List Char) :
    replaceNewlines (xs ++ ys) = replaceNewlines xs ++ replaceNewlines ys := by
  induction xs with
  | nil => rfl
  | cons c cs ih =>
    simp only [List.cons_append, replaceNewlines, List.append_eq]
    split_ifs with hc
    · rw [ih, List.append_assoc]
    · rw [ih, List.cons_append]

/-- The newline rewrite leaves no newline character behind. -/
theorem replaceNewlines_no_newline (cs : List Char) : '\n' ∉ replaceNewlines cs := by
  induction cs with
  | nil => simp [replaceNewlines]
  | cons c cs ih =>
    simp only [replaceNewlines]
    split_ifs with hc
    · intro hmem
      rcases List.mem_append.mp hmem with h | h
      · revert h
        decide
      · exact ih h
    · intro hmem
      rcases List.mem_cons.mp hmem with h | h
      · exact hc h.symm
      · exact ih h

/-- The keys produced by the preview loop are consecutive from the start
index. -/
theorem previewRows_map_fst (m k : Nat) (b : List String) :
    (previewRows m k b).map Prod.fst = List.range' k b.length := by
  induction b generalizing k with
  | nil => rfl
  | cons x xs ih =>
    simp only [previewRows, List.map_cons, List.length_cons]
    rw [ih]
    rfl

/-- The preview loop's row at position `i` carries key `k + i` and the
preview of the `i`-th remaining item. -/
theorem previewRows_get (m k : Nat) (b : List String) (i : Nat) (h : i < b.length) :
    (previewRows m k b)[i]?
      = some (k + i, toString (k + i) ++ ": " ++ previewOf m (b.getD i "")) := by
  induction b generalizing k i with
  | nil => simp at h
  | cons x xs ih =>
    cases i with
    | zero => simp [previewRows]
    | succ j =>
      have hk : k + 1 + j = k + (j + 1) := by omega
      simp only [previewRows, List.getElem?_cons_succ, List.getD_cons_succ]
      rw [ih (k + 1) j (by simpa using h), hk]

/-- C8 (amended): `get_board_preview` maps exactly the board's indices, in
order, and the value at index `i` is the index followed by `": "` and the
item's preview text; the preview text is the content truncated to
`preview_max` characters with `"..."` appended exactly when the content
is longer than `preview_max`, with every newline rewritten to the
four-character marker sequence, so no newline survives in any value. -/
theorem get_board_preview_spec (m : Nat) (s : CoreState) :
    ((get_board_preview m s).map Prod.fst = List.range s.board.length) ∧
    (∀ i, i < s.board.length →
      (get_board_preview m s)[i]?
        = some (i, toString i ++ ": " ++ previewOf m (s.board.getD i ""))) ∧
    (∀ item : String, item.length ≤ m →
      previewOf m item = String.mk (replaceNewlines item.toList)) ∧
    (∀ item : String, m < item.length →
      previewOf m item = String.mk (replaceNewlines (item.toList.take m)) ++ "...") ∧
    (∀ item : String, '\n' ∉ (previewOf m item).toList) := by
  refine ⟨?_, ?_, ?_, ?_, ?_⟩
  · rw [get_board_preview, previewRows_map_fst]
    exact (List.range_eq_range' s.board.length).symm
  · intro i h
    have hr := previewRows_get m 0 s.board i h
    simpa using hr
  · intro item hle
    simp only [previewOf]
    rw [if_neg (not_lt.mpr hle)]
  · intro item hlt
    simp only [previewOf]
    rw [if_pos hlt]
    have h1 : (String.mk (item.toList.take m) ++ ("..." : String)).toList
        = item.toList.take m ++ ("..." : String).toList := rfl
    rw [h1, replaceNewlines_append]
    have h2 : replaceNewlines ("..." : String).toList = ("..." : String).toList := by decide
    rw [h2]
    rfl
  · intro item
    simp only [previewOf]
    exact replaceNewlines_no_newline _

/-- Witness for C8 at a short entry: the row for index 0 of board
`["ab"]` is `"0: ab"`. -/
theorem get_board_preview_spec_witness :
    (get_board_preview 5 (⟨["ab"], 10, false, 0, 0, []⟩ : CoreState))[0]?
      = some (0, "0: ab") :=
  ((get_board_preview_spec 5 ⟨["ab"], 10, false, 0, 0, []⟩).2.1 0 (by decide)).trans
    (by decide)

/-- C8 as literally stated is false: the value stored for index 0 of the
one-entry board `["ab"]` is not the entry's (untruncated, newline-free)
content `"ab"`, because the code also embeds the index marker `"0: "`
into the value. -/
theorem get_board_preview_claim_false :
    get_board_preview 30 (⟨["ab"], 10, false, 0, 0, []⟩ : CoreState) ≠ [(0, "ab")] := by
  decide

/-- C9: a "paste" request with an out-of-range index gets a response with
`success := false` and an error message, and leaves the state untouched. -/
theorem ipc_paste_invalid_index (s : CoreState) (i : Int) (now : ℚ)
    (h : i < 0 ∨ (s.board.length : Int) ≤ i) :
    (handle_message ⟨some "paste", none, some i⟩ now s).1.success = false ∧
    (handle_message ⟨some "paste", none, some i⟩ now s).1.error
      = some "Invalid index or item not found" ∧
    (handle_message ⟨some "paste", none, some i⟩ now s).2 = s := by
  have hob : get_board_item i s = none := by
    unfold get_board_item
    rw [if_neg]
    rintro ⟨h0, hl⟩
    rcases h with h | h
    · omega
    · omega
  by_cases h0 : 0 ≤ i
  · simp [handle_message, hob, h0]
  · simp [handle_message, h0]

/-- Witness for C9: index 5 against the two-entry board `["x", "y"]`. -/
theorem ipc_paste_invalid_index_witness :
    (handle_message ⟨some "paste", none, some 5⟩ 0
        (⟨["x", "y"], 10, false, 0, 0, []⟩ : CoreState)).1.success = false ∧
    (handle_message ⟨some "paste", none, some 5⟩ 0
        (⟨["x", "y"], 10, false, 0, 0, []⟩ : CoreState)).1.error
      = some "Invalid index or item not found" ∧
    (handle_message ⟨some "paste", none, some 5⟩ 0
        (⟨["x", "y"], 10, false, 0, 0, []⟩ : CoreState)).2
      = (⟨["x", "y"], 10, false, 0, 0, []⟩ : CoreState) :=
  ipc_paste_invalid_index ⟨["x", "y"], 10, false, 0, 0, []⟩ 5 0 (Or.inr (by decide))

/-- C10: a "paste" request for an in-range index whose entry is the empty
string fails — `get_board_item` succeeds with `some ""`, but the
handler's truthiness test on the content turns the response into
`success := false` with an error, so an empty entry is never retrievable
through the "paste" action. -/
theorem ipc_paste_empty_entry (s : CoreState) (i : Int) (now : ℚ)
    (h0 : 0 ≤ i) (h1 : i < (s.board.length : Int))
    (he : s.board.getD i.toNat "x" = "") :
    get_board_item i s = some "" ∧
    (handle_message ⟨some "paste", none, some i⟩ now s).1.success = false ∧
    (handle_message ⟨some "paste", none, some i⟩ now s).1.error
      = some "Invalid index or item not found" ∧
    (handle_message ⟨some "paste", none, some i⟩ now s).2 = s := by
  have hnat : i.toNat < s.board.length := by omega
  have hob : get_board_item i s = some "" := by
    unfold get_board_item
    rw [if_pos ⟨h0, h1⟩]
    rw [List.getElem?_eq_getElem hnat]
    have := List.getD_eq_getElem s.board "x" hnat
    rw [← he, this]
  refine ⟨hob, ?_, ?_, ?_⟩ <;> simp [handle_message, hob, h0]

/-- Witness for C10: the empty entry at index 0 of `["", "y"]`. -/
theorem ipc_paste_empty_entry_witness :
    get_board_item 0 (⟨["", "y"], 10, false, 0, 0, []⟩ : CoreState) = some "" ∧
    (handle_message ⟨some "paste", none, some 0⟩ 0
        (⟨["", "y"], 10, false, 0, 0, []⟩ : CoreState)).1.success = false ∧
    (handle_message ⟨some "paste", none, some 0⟩ 0
        (⟨["", "y"], 10, false, 0, 0, []⟩ : CoreState)).1.error
      = some "Invalid index or item not found" ∧
    (handle_message ⟨some "paste", none, some 0⟩ 0
        (⟨["", "y"], 10, false, 0, 0, []⟩ : CoreState)).2
      = (⟨["", "y"], 10, false, 0, 0, []⟩ : CoreState) :=
  ipc_paste_empty_entry ⟨["", "y"], 10, false, 0, 0, []⟩ 0 0 (by decide) (by decide)
    (by decide)
